import Mathlib

/-!
Verification of the retro-sketch extraction pipeline.

This file gives a shallow embedding of the JavaScript extraction code
(`src/dataExtractor.js`, `src/groqAgent.js`, `src/translator.js`, and the
PDF/OCR front end) and proves the specified properties about it.

Strings are modelled as `String` / `List Char`; the concrete regular
expressions of the source are embedded as explicit scanners that mirror the
JavaScript regex semantics (case-insensitive matching, greedy classes with
the backtracking the concrete patterns need, `matchAll` scanning with
advancement past each match).  Asynchronous provider calls are modelled by
explicit outcome oracles.  Numbers are modelled as `ℚ`.
-/

namespace RetroSketch

/-- JavaScript `\d` character class. -/
def isDigitCh (c : Char) : Bool := '0' ≤ c && c ≤ '9'

/-- Character class `[0-9.]` used by the roughness patterns. -/
def isDigitDot (c : Char) : Bool := isDigitCh c || c == '.'

/-- JavaScript `\s` character class (ECMAScript WhiteSpace ∪ LineTerminator). -/
def isJsSpace (c : Char) : Bool :=
  c == ' ' || c == '\t' || c == '\n' || c == '\r' ||
  c.toNat == 0x0b || c.toNat == 0x0c || c.toNat == 0xa0 || c.toNat == 0x1680 ||
  (0x2000 ≤ c.toNat && c.toNat ≤ 0x200a) ||
  c.toNat == 0x2028 || c.toNat == 0x2029 || c.toNat == 0x202f ||
  c.toNat == 0x205f || c.toNat == 0x3000 || c.toNat == 0xfeff

/-- Character class `[:\s]` used by the heat-treatment patterns. -/
def isColonSpace (c : Char) : Bool := c == ':' || isJsSpace c

/-- Character class `[А-Яа-я]` (basic Cyrillic letters, as in the source). -/
def isCyr (c : Char) : Bool :=
  ('А' ≤ c && c ≤ 'Я') || ('а' ≤ c && c ≤ 'я')

/-- Character class `[A-Z0-9]` under the `i` flag: any Latin letter or digit. -/
def isLatinAlnum (c : Char) : Bool :=
  ('A' ≤ c && c ≤ 'Z') || ('a' ≤ c && c ≤ 'z') || isDigitCh c

/-- Character class `[A-Z]` / `[a-z]` under the `i` flag: any Latin letter. -/
def isLatinLetter (c : Char) : Bool :=
  ('A' ≤ c && c ≤ 'Z') || ('a' ≤ c && c ≤ 'z')

/-- JavaScript `\w` character class (`[A-Za-z0-9_]`); Cyrillic is *not* `\w`. -/
def isWordCh (c : Char) : Bool := isLatinAlnum c || c == '_'

/-- `\w`-ness of an optional character; the ends of the string count as
non-word, which is how `\b` treats them. -/
def isWordAt : Option Char → Bool
  | none => false
  | some c => isWordCh c

/-- Lower-casing as JavaScript case-insensitive matching canonicalizes the
characters used by this code base (ASCII and basic Cyrillic). -/
def jsLower (c : Char) : Char :=
  if 'A' ≤ c && c ≤ 'Z' then Char.ofNat (c.toNat + 32)
  else if 'А' ≤ c && c ≤ 'Я' then Char.ofNat (c.toNat + 32)
  else if c == 'Ё' then 'ё'
  else c

/-- Upper-casing as JavaScript `toUpperCase` acts on the characters used by
this code base (ASCII and basic Cyrillic). -/
def jsUpper (c : Char) : Char :=
  if 'a' ≤ c && c ≤ 'z' then Char.ofNat (c.toNat - 32)
  else if 'а' ≤ c && c ≤ 'я' then Char.ofNat (c.toNat - 32)
  else if c == 'ё' then 'Ё'
  else c

/-- Case-insensitive match of a literal pattern at the head of the input;
returns the remaining input on success.  Models a sequence of literal
characters in a regex with the `i` flag. -/
def matchLitCI : List Char → List Char → Option (List Char)
  | [], s => some s
  | _ :: _, [] => none
  | p :: ps, c :: cs => if jsLower p == jsLower c then matchLitCI ps cs else none

/-- JavaScript `String.prototype.trim`. -/
def jsTrim (cs : List Char) : List Char :=
  ((cs.dropWhile isJsSpace).reverse.dropWhile isJsSpace).reverse

/-- Numeric value of a run of decimal digits. -/
def digitsNatVal (ds : List Char) : Nat :=
  ds.foldl (fun a c => a * 10 + (c.toNat - '0'.toNat)) 0

/-- JavaScript `parseFloat` restricted to the shapes produced by the `[0-9.]+`
captures: longest valid decimal prefix (integer part, optional dot, optional
fraction), `none` models `NaN`. -/
def jsParseFloat (cs : List Char) : Option ℚ :=
  let ip := cs.takeWhile isDigitCh
  match cs.dropWhile isDigitCh with
  | '.' :: r2 =>
      let fp := r2.takeWhile isDigitCh
      if ip.isEmpty && fp.isEmpty then none
      else some (mkRat (digitsNatVal ip * 10 ^ fp.length + digitsNatVal fp) (10 ^ fp.length))
  | _ => if ip.isEmpty then none else some (mkRat (digitsNatVal ip) 1)

/-- First-occurrence de-duplication, the semantics of `[...new Set(l)]`. -/
def jsSetAux [DecidableEq α] (seen : List α) : List α → List α
  | [] => []
  | a :: l => if a ∈ seen then jsSetAux seen l else a :: jsSetAux (a :: seen) l

/-- `[...new Set(l)]`. -/
def jsSet [DecidableEq α] (l : List α) : List α := jsSetAux [] l

/-- `if (!acc.includes(x)) acc.push(x)`. -/
def pushUnique [DecidableEq α] (acc : List α) (x : α) : List α :=
  if x ∈ acc then acc else acc ++ [x]

/-- A matcher: given a suffix of the text, either fail or return the
captured group together with the rest of the text after the whole match. -/
abbrev Matcher := List Char → Option (List Char × List Char)

/-- `matchAll` scanning: try the matcher at every position from left to
right; after a successful match continue after it (JavaScript advances
`lastIndex` past the match, or by one character for an empty match). -/
def scanAllAux (m : Matcher) : Nat → List Char → List (List Char)
  | 0, _ => []
  | Nat.succ _, [] =>
      (match m [] with
       | some (cap, _) => [cap]
       | none => [])
  | Nat.succ fuel, c :: rest =>
      match m (c :: rest) with
      | some (cap, r) =>
          cap :: scanAllAux m fuel (if r.length < rest.length + 1 then r else rest)
      | none => scanAllAux m fuel rest

/-- All captures of a global regex over the text, in order. -/
def scanAll (m : Matcher) (s : List Char) : List (List Char) :=
  scanAllAux m (s.length + 1) s

/-! ### Matchers for the concrete source patterns -/

/-- Tail `\s*(\d+[А-Яа-я]*)` (or `[А-Яа-я]+` when `star` is false) shared by
the steel-grade patterns. -/
def capNumCyr (star : Bool) (r : List Char) : Option (List Char × List Char) :=
  let r2 := r.dropWhile isJsSpace
  let ds := r2.takeWhile isDigitCh
  if ds.isEmpty then none else
  let r3 := r2.dropWhile isDigitCh
  let cy := r3.takeWhile isCyr
  if !star && cy.isEmpty then none else
  some (ds ++ cy, r3.dropWhile isCyr)

/-- `/сталь\s*(\d+[А-Яа-я]*)/gi` -/
def mSteel1 : Matcher := fun s =>
  (matchLitCI "сталь".data s).bind (capNumCyr true)

/-- `/Ст\.?\s*(\d+[А-Яа-я]*)/gi` -/
def mSteel2 : Matcher := fun s =>
  (matchLitCI "Ст".data s).bind fun r1 =>
    capNumCyr true (match r1 with
                    | '.' :: r2 => r2
                    | _ => r1)

/-- Backtracking for `[А-Яа-я]+` inside `/(\d+[А-Яа-я]+)\s*сталь/gi`: try the
greedy Cyrillic run first, then give characters back one at a time. -/
def mSteel3Go (ds cy r2 : List Char) : Nat → Option (List Char × List Char)
  | 0 => none
  | Nat.succ k =>
      match matchLitCI "сталь".data ((cy.drop (Nat.succ k) ++ r2).dropWhile isJsSpace) with
      | some r => some (ds ++ cy.take (Nat.succ k), r)
      | none => mSteel3Go ds cy r2 k

/-- `/(\d+[А-Яа-я]+)\s*сталь/gi` -/
def mSteel3 : Matcher := fun s =>
  let ds := s.takeWhile isDigitCh
  if ds.isEmpty then none else
  let r1 := s.dropWhile isDigitCh
  mSteel3Go ds (r1.takeWhile isCyr) (r1.dropWhile isCyr) (r1.takeWhile isCyr).length

/-- `/марка\s*(\d+[А-Яа-я]+)/gi` -/
def mSteel4 : Matcher := fun s =>
  (matchLitCI "марка".data s).bind (capNumCyr false)

/-- `/Material:\s*([A-Z0-9]+)/gi` -/
def mSteel5 : Matcher := fun s =>
  (matchLitCI "Material:".data s).bind fun r1 =>
    let r2 := r1.dropWhile isJsSpace
    let cap := r2.takeWhile isLatinAlnum
    if cap.isEmpty then none else some (cap, r2.dropWhile isLatinAlnum)

/-- `/Steel\s+([A-Z0-9]+)/gi` -/
def mSteel6 : Matcher := fun s =>
  (matchLitCI "Steel".data s).bind fun r1 =>
    if (r1.takeWhile isJsSpace).isEmpty then none else
    let r2 := r1.dropWhile isJsSpace
    let cap := r2.takeWhile isLatinAlnum
    if cap.isEmpty then none else some (cap, r2.dropWhile isLatinAlnum)

/-- Capture `(\d+[-.]?\d*)` (the separator set is a parameter: the HRC
patterns use `[-–]` instead of `[-.]`). -/
def capStdNum (seps : List Char) (r2 : List Char) : Option (List Char × List Char) :=
  if (r2.takeWhile isDigitCh).isEmpty then none else
  match r2.dropWhile isDigitCh with
  | c :: r4 =>
      if c ∈ seps then
        some (r2.takeWhile isDigitCh ++ c :: r4.takeWhile isDigitCh, r4.dropWhile isDigitCh)
      else some (r2.takeWhile isDigitCh, c :: r4)
  | [] => some (r2.takeWhile isDigitCh, [])

/-- Capture `(\d+<sep>\d+)` with a mandatory separator. -/
def capStdSep (sep : Char) (r2 : List Char) : Option (List Char × List Char) :=
  if (r2.takeWhile isDigitCh).isEmpty then none else
  match r2.dropWhile isDigitCh with
  | c :: r4 =>
      if c == sep && !(r4.takeWhile isDigitCh).isEmpty then
        some (r2.takeWhile isDigitCh ++ c :: r4.takeWhile isDigitCh, r4.dropWhile isDigitCh)
      else none
  | [] => none

/-- A standards pattern: case-insensitive literal, `\s*`, then a numeric
capture. -/
def mStd (lit : String) (cap : List Char → Option (List Char × List Char)) : Matcher := fun s =>
  (matchLitCI lit.data s).bind fun r1 => cap (r1.dropWhile isJsSpace)

/-- The nine standards patterns of `extractGOSTStandards`, each tagged with
the (Cyrillic) prefix string the source attaches to its captures. -/
def stdPatterns : List (String × Matcher) :=
  [("ГОСТ", mStd "ГОСТ" (capStdNum ['-', '.'])),
   ("ГОСТ", mStd "GOST" (capStdNum ['-', '.'])),
   ("ГОСТ", mStd "ГОСТ" (capStdSep '.')),
   ("ГОСТ", mStd "ГОСТ" (capStdSep '-')),
   ("ОСТ", mStd "ОСТ" (capStdNum ['-', '.'])),
   ("ОСТ", mStd "OST" (capStdNum ['-', '.'])),
   ("ТУ", mStd "ТУ" (capStdNum ['-', '.'])),
   ("ТУ", mStd "TU" (capStdNum ['-', '.'])),
   ("ТУ", mStd "ТУ" (capStdSep '.'))]

/-- `extractGOSTStandards` (src/dataExtractor.js:42-83). -/
def extractGOSTStandards (text : String) : List String :=
  stdPatterns.foldl
    (fun acc pm =>
      (scanAll pm.2 text.data).foldl
        (fun acc2 cap => pushUnique acc2 (pm.1 ++ " " ++ String.mk cap)) acc)
    []

/-- `text.match(new RegExp('(' + escaped g + '[^\n]{0,100})', 'i'))`: first
case-insensitive occurrence of the literal `g`, captured together with up to
100 following non-newline characters. -/
def findLitWindow (g : List Char) : List Char → Option (List Char)
  | [] =>
      (match matchLitCI g [] with
       | some _ => some []
       | none => none)
  | c :: rest =>
      match matchLitCI g (c :: rest) with
      | some r => some ((c :: rest).take g.length ++ (r.takeWhile (fun ch => ch != '\n')).take 100)
      | none => findLitWindow g rest

/-- `if (material && !materials.includes(material)) materials.push(material)`. -/
def pushIfNew (acc : List String) (m : String) : List String :=
  if m ≠ "" ∧ m ∉ acc then acc ++ [m] else acc

/-- The six steel patterns of `extractMaterials`, in source order. -/
def steelPatterns : List Matcher :=
  [mSteel1, mSteel2, mSteel3, mSteel4, mSteel5, mSteel6]

/-- `extractMaterials` (src/dataExtractor.js:7-37). -/
def extractMaterials (text : String) : List String :=
  let materials :=
    steelPatterns.foldl
      (fun acc m =>
        (scanAll m text.data).foldl
          (fun acc2 cap => pushIfNew acc2 (String.mk (jsTrim cap))) acc)
      []
  let gostMaterials :=
    (extractGOSTStandards text).filterMap (fun g => (findLitWindow g.data text.data).map String.mk)
  jsSet (materials ++ gostMaterials)

/-- Capture `([0-9.]+)`. -/
def capDots (r : List Char) : Option (List Char × List Char) :=
  let cap := r.takeWhile isDigitDot
  if cap.isEmpty then none else some (cap, r.dropWhile isDigitDot)

/-- Pattern `<lit>\s*[=:]\s*<cap>`. -/
def mLitEq (lit : String) (cap : List Char → Option (List Char × List Char)) : Matcher := fun s =>
  (matchLitCI lit.data s).bind fun r1 =>
    match r1.dropWhile isJsSpace with
    | c :: r2 =>
        if c == '=' || c == ':' then cap (r2.dropWhile isJsSpace) else none
    | [] => none

/-- Pattern `<lit>\s*<cap>`. -/
def mLitPlain (lit : String) (cap : List Char → Option (List Char × List Char)) : Matcher := fun s =>
  (matchLitCI lit.data s).bind fun r1 => cap (r1.dropWhile isJsSpace)

/-- Pattern `<w1>\s*<w2>\s*[=:]\s*([0-9.]+)` (the `шероховатость`/`roughness`
forms). -/
def mWordRaEq (w1 w2 : String) : Matcher := fun s =>
  (matchLitCI w1.data s).bind fun r1 =>
    (matchLitCI w2.data (r1.dropWhile isJsSpace)).bind fun r2 =>
      match r2.dropWhile isJsSpace with
      | c :: r3 =>
          if c == '=' || c == ':' then capDots (r3.dropWhile isJsSpace) else none
      | [] => none

/-- The seven roughness patterns of `extractRaValues`, in source order
(`Rа` is Latin `R` followed by Cyrillic `а`). -/
def raPatterns : List Matcher :=
  [mLitEq "Ra" capDots, mLitPlain "Ra" capDots, mWordRaEq "шероховатость" "Ra",
   mLitEq "Rz" capDots, mLitPlain "Rz" capDots, mLitEq "Rа" capDots,
   mWordRaEq "roughness" "Ra"]

/-- `if (!isNaN(ra) && ra > 0 && !raValues.includes(ra)) raValues.push(ra)`. -/
def pushRa (acc : List ℚ) (cap : List Char) : List ℚ :=
  match jsParseFloat cap with
  | none => acc
  | some ra => if 0 < ra ∧ ra ∉ acc then acc ++ [ra] else acc

/-- `extractRaValues` (src/dataExtractor.js:88-112); the final
`.sort((a, b) => a - b)` is the ascending numeric sort. -/
def extractRaValues (text : String) : List ℚ :=
  List.insertionSort (· ≤ ·)
    (raPatterns.foldl (fun acc m => (scanAll m text.data).foldl pushRa acc) [])

/-- Capture `([A-Z]\d+\/[a-z]\d+)` under the `i` flag (both classes match any
Latin letter). -/
def capFit (r : List Char) : Option (List Char × List Char) :=
  match r with
  | c1 :: r1 =>
      if isLatinLetter c1 then
        let ds1 := r1.takeWhile isDigitCh
        if ds1.isEmpty then none else
        match r1.dropWhile isDigitCh with
        | '/' :: c2 :: r3 =>
            if isLatinLetter c2 then
              let ds2 := r3.takeWhile isDigitCh
              if ds2.isEmpty then none else
              some (c1 :: ds1 ++ '/' :: c2 :: ds2, r3.dropWhile isDigitCh)
            else none
        | _ => none
      else none
  | [] => none

/-- Capture `([Hh]\d+\/[fg]\d+)` / `([Hh]\d+\/[eg]\d+)`: first letter `H` or
`h`, second letter drawn from `snd` up to case. -/
def capFitH (snd : List Char) (r : List Char) : Option (List Char × List Char) :=
  match r with
  | c1 :: r1 =>
      if c1 == 'H' || c1 == 'h' then
        let ds1 := r1.takeWhile isDigitCh
        if ds1.isEmpty then none else
        match r1.dropWhile isDigitCh with
        | '/' :: c2 :: r3 =>
            if jsLower c2 ∈ snd then
              let ds2 := r3.takeWhile isDigitCh
              if ds2.isEmpty then none else
              some (c1 :: ds1 ++ '/' :: c2 :: ds2, r3.dropWhile isDigitCh)
            else none
        | _ => none
      else none
  | [] => none

/-- `/([A-Z]\d+\/[a-z]\d+)\s*посадка/gi` -/
def mFit4 : Matcher := fun s =>
  (capFit s).bind fun cr =>
    (matchLitCI "посадка".data (cr.2.dropWhile isJsSpace)).map fun r2 => (cr.1, r2)

/-- The six fit patterns of `extractFits`, in source order. -/
def fitPatterns : List Matcher :=
  [mLitEq "посадка" capFit, mLitPlain "посадка" capFit, mLitEq "fit" capFit,
   mFit4, capFitH ['f', 'g'], capFitH ['e', 'g']]

/-- `extractFits` (src/dataExtractor.js:117-140). -/
def extractFits (text : String) : List String :=
  fitPatterns.foldl
    (fun acc m =>
      (scanAll m text.data).foldl
        (fun acc2 cap => pushUnique acc2 (String.mk (cap.map jsUpper))) acc)
    []

/-- Backtracking for `[:\s]+(.+?)(?:\n|$)`: `sep` is the greedy `[:\s]` run,
`r2` the text after it.  Try keeping `n` separator characters starting from
the full run; the lazy `(.+?)(?:\n|$)` then captures everything up to the
next newline or the end, and needs its first character to be a non-newline. -/
def heatBT (sep r2 : List Char) : Nat → Option (List Char × List Char)
  | 0 => none
  | Nat.succ k =>
      match sep.drop (Nat.succ k) ++ r2 with
      | [] => heatBT sep r2 k
      | c :: t =>
          if c == '\n' then heatBT sep r2 k
          else
            some ((c :: t).takeWhile (fun ch => ch != '\n'),
                  ((c :: t).dropWhile (fun ch => ch != '\n')).drop 1)

/-- `/<word>[:\s]+(.+?)(?:\n|$)/gi` -/
def mHeatWord (w : String) : Matcher := fun s =>
  (matchLitCI w.data s).bind fun r1 =>
    heatBT (r1.takeWhile isColonSpace) (r1.dropWhile isColonSpace)
      (r1.takeWhile isColonSpace).length

/-- `/heat\s+treatment[:\s]+(.+?)(?:\n|$)/gi` -/
def mHeatTwoWords (w1 w2 : String) : Matcher := fun s =>
  (matchLitCI w1.data s).bind fun r1 =>
    if (r1.takeWhile isJsSpace).isEmpty then none else
    (matchLitCI w2.data (r1.dropWhile isJsSpace)).bind fun r2 =>
      heatBT (r2.takeWhile isColonSpace) (r2.dropWhile isColonSpace)
        (r2.takeWhile isColonSpace).length

/-- The twelve heat-treatment patterns of `extractHeatTreatment`, in source
order (`[-–]` of the HRC patterns includes the en dash). -/
def treatmentPatterns : List Matcher :=
  [mHeatWord "термообработка", mHeatTwoWords "heat" "treatment",
   mHeatWord "закалка", mHeatWord "hardening",
   mLitEq "HRC" (capStdNum ['-', '–']), mLitPlain "HRC" (capStdNum ['-', '–']),
   mHeatWord "отпуск", mHeatWord "tempering",
   mHeatWord "нормализация", mHeatWord "normalization",
   mHeatWord "отжиг", mHeatWord "annealing"]

/-- `if (treatment && treatment.length > 2 && !treatments.includes(treatment))`. -/
def pushTreatment (acc : List String) (cap : List Char) : List String :=
  if 2 < (String.mk (jsTrim cap)).length ∧ String.mk (jsTrim cap) ∉ acc then
    acc ++ [String.mk (jsTrim cap)]
  else acc

/-- `extractHeatTreatment` (src/dataExtractor.js:145-174). -/
def extractHeatTreatment (text : String) : List String :=
  treatmentPatterns.foldl
    (fun acc m => (scanAll m text.data).foldl pushTreatment acc)
    []

/-- `a || b` on an optional string with the JavaScript falsiness of `""`. -/
def jsOrStr (a : Option String) (b : String) : String :=
  match a with
  | some s => if s = "" then b else s
  | none => b

/-! ### Groq model cascade (`src/groqAgent.js`) -/

/-- Outcome of one attempted chat-completions request for one model: either
the parsed message content plus usage metadata, or the error message that the
attempt ends up throwing (HTTP error body, network failure, or the
`Invalid response format` check).  Attempts are indexed by loop position. -/
inductive ModelOutcome where
  | ok (content usage : String)
  | fail (msg : String)
deriving DecidableEq, Repr

/-- The value `callGroqAPI` resolves with on success. -/
structure CallResult where
  content : String
  model : String
  usage : String
deriving DecidableEq, Repr

/-- The model loop of `callGroqAPI` (src/groqAgent.js:36-108).  Also returns
the list of models for which a request was actually issued, in order. -/
def callGroqGo (outcome : Nat → ModelOutcome) :
    List String → Nat → Option String → Except String CallResult × List String
  | [], _, lastError =>
      (Except.error ("All models failed. Last error: " ++ jsOrStr lastError "Unknown error"), [])
  | m :: rest, i, _ =>
      match outcome i with
      | ModelOutcome.ok content usage => (Except.ok ⟨content, m, usage⟩, [m])
      | ModelOutcome.fail msg =>
          let r := callGroqGo outcome rest (i + 1) (some msg)
          (r.1, m :: r.2)

/-- `callGroqAPI` (src/groqAgent.js:29-109): the missing-key guard, then the
model fallback loop.  `outcome i` is the result of the request issued for the
model at index `i`; the second component lists the models attempted. -/
def callGroqAPI (apiKey : String) (models : List String) (outcome : Nat → ModelOutcome) :
    Except String CallResult × List String :=
  if apiKey = "" then
    (Except.error "Groq API key not configured. Set VITE_GROQ_API_KEY in .env", [])
  else callGroqGo outcome models 0 none

/-! ### `extractAllData` (src/dataExtractor.js:432-486, OpenRouter-first
version) -/

/-- The structured record this pipeline produces. -/
structure ExtractionRecord where
  materials : List String
  standards : List String
  raValues : List ℚ
  fits : List String
  heatTreatment : List String
  rawText : String
deriving DecidableEq, Repr

/-- An AI-extraction payload as the merge accepts it: each field is an array
or absent (`aiData.field || []` turns absent into `[]`). -/
structure AiData where
  materials : Option (List String)
  standards : Option (List String)
  raValues : Option (List ℚ)
  fits : Option (List String)
  heatTreatment : Option (List String)
deriving DecidableEq, Repr

/-- Outcome of one AI structured-extraction attempt (OpenRouter or Groq). -/
inductive AiOutcome where
  | ok (d : AiData)
  | fail
deriving DecidableEq, Repr

/-- `extractAllData` (src/dataExtractor.js:432-486): try OpenRouter, then
Groq, always compute the regex record, merge with `[...new Set(...)]` unions
(AI entries first) when an AI payload arrived, otherwise return the regex
record.  The second component lists the AI providers actually invoked. -/
def extractAllData (openrouter groq : AiOutcome) (ocrText : String) :
    ExtractionRecord × List String :=
  let attempted : Option AiData × List String :=
    match openrouter with
    | AiOutcome.ok d => (some d, ["openrouter"])
    | AiOutcome.fail =>
        match groq with
        | AiOutcome.ok d => (some d, ["openrouter", "groq"])
        | AiOutcome.fail => (none, ["openrouter", "groq"])
  let regexMaterials := extractMaterials ocrText
  let regexStandards := extractGOSTStandards ocrText
  let regexRa := extractRaValues ocrText
  let regexFits := extractFits ocrText
  let regexHeat := extractHeatTreatment ocrText
  match attempted.1 with
  | some d =>
      ({ materials := jsSet (d.materials.getD [] ++ regexMaterials),
         standards := jsSet (d.standards.getD [] ++ regexStandards),
         raValues := List.insertionSort (· ≤ ·) (jsSet (d.raValues.getD [] ++ regexRa)),
         fits := jsSet (d.fits.getD [] ++ regexFits),
         heatTreatment := jsSet (d.heatTreatment.getD [] ++ regexHeat),
         rawText := ocrText }, attempted.2)
  | none =>
      ({ materials := regexMaterials, standards := regexStandards,
         raValues := regexRa, fits := regexFits, heatTreatment := regexHeat,
         rawText := ocrText }, attempted.2)

/-! ### Translator (`src/translator.js`, OpenRouter version, lines 60-118) -/

/-- The technical glossary, in source order. -/
def technicalGlossary : List (String × String) :=
  [("сталь", "steel"), ("Сталь", "Steel"), ("Ст.", "Steel"),
   ("марка", "grade"), ("Марка", "Grade"),
   ("ГОСТ", "GOST"), ("ОСТ", "OST"), ("ТУ", "TU"),
   ("шероховатость", "surface roughness"), ("Шероховатость", "Surface Roughness"),
   ("Ra", "Ra"), ("Rz", "Rz"),
   ("посадка", "fit"), ("Посадка", "Fit"),
   ("термообработка", "heat treatment"), ("Термообработка", "Heat Treatment"),
   ("закалка", "hardening"), ("Закалка", "Hardening"),
   ("отпуск", "tempering"), ("Отпуск", "Tempering"),
   ("нормализация", "normalization"), ("Нормализация", "Normalization"),
   ("отжиг", "annealing"), ("Отжиг", "Annealing"),
   ("Материал", "Material"), ("материал", "material"),
   ("Размер", "Size"), ("размер", "size"),
   ("Допуск", "Tolerance"), ("допуск", "tolerance"),
   ("Размеры", "Dimensions"), ("размеры", "dimensions"),
   ("Чертеж", "Drawing"), ("чертеж", "drawing"),
   ("Деталь", "Part"), ("деталь", "part")]

/-- `translated.replace(new RegExp('\\b' + key + '\\b', 'gi'), repl)`:
global case-insensitive replacement of the literal key between `\b` word
boundaries (`\w` is `[A-Za-z0-9_]`, so Cyrillic letters sit on the non-word
side).  `prev` is the character before the current position.  The fuel is the
length of the remaining text; every step consumes at least one character. -/
def jsReplaceWordCI (key repl : List Char) (fuel : Nat) (prev : Option Char) (s : List Char) :
    List Char :=
  match fuel, s with
  | 0, s => s
  | Nat.succ _, [] => []
  | Nat.succ fuel, c :: rest =>
      let noMatch : List Char := c :: jsReplaceWordCI key repl fuel (some c) rest
      if key ≠ [] && (isWordAt prev != isWordAt (some c)) then
        match matchLitCI key (c :: rest) with
        | some r =>
            let matched := (c :: rest).take key.length
            if isWordAt matched.getLast? != isWordAt r.head? then
              repl ++ jsReplaceWordCI key repl fuel matched.getLast? r
            else noMatch
        | none => noMatch
      else noMatch

/-- One glossary substitution pass over a string. -/
def glossaryStep (s : String) (kv : String × String) : String :=
  String.mk (jsReplaceWordCI kv.1.data kv.2.data s.data.length none s.data)

/-- The glossary loop of `translateToEnglish` (src/translator.js:64-69). -/
def applyGlossary (text : String) : String :=
  technicalGlossary.foldl glossaryStep text

/-- Outcome of the `fetch(API_BASE_URL + '/translate', ...)` call:
`ok t` is a 2xx response whose JSON carries `translatedText` (`none` when the
field is absent), `httpError` a non-ok status, `netFail` a rejected fetch. -/
inductive TranslateApiOutcome where
  | ok (translatedText : Option String)
  | httpError (status : Nat)
  | netFail
deriving DecidableEq, Repr

/-- Environment of one `translateToEnglish` call: either the dynamic
`import('./config.js')` rejects (any such internal error lands in the outer
catch), or the API call runs with the given outcome. -/
inductive TranslateEnv where
  | importFail
  | api (r : TranslateApiOutcome)
deriving DecidableEq, Repr

/-- `translateToEnglish` (src/translator.js:60-102): glossary substitution,
then the translation API; a failed API call returns the glossary-substituted
text, and any other internal error returns the original text.  Total: every
path resolves with a string. -/
def translateToEnglish (env : TranslateEnv) (text : String) (useGlossary : Bool) :
    String :=
  let translated := if useGlossary then applyGlossary text else text
  match env with
  | TranslateEnv.importFail => text
  | TranslateEnv.api (TranslateApiOutcome.ok (some t)) =>
      if t = "" then translated else t
  | TranslateEnv.api (TranslateApiOutcome.ok none) => translated
  | TranslateEnv.api (TranslateApiOutcome.httpError _) => translated
  | TranslateEnv.api TranslateApiOutcome.netFail => translated

/-- `translateExtractedData` (src/translator.js:107-118): translate
`materials`, `standards`, `heatTreatment` and `rawText` elementwise with
`translateToEnglish`; `raValues` and `fits` are passed through unchanged.
`tr` is the per-string result of the awaited `translateToEnglish` calls. -/
def translateExtractedData (tr : String → String) (data : ExtractionRecord) :
    ExtractionRecord :=
  { materials := data.materials.map tr,
    standards := data.standards.map tr,
    raValues := data.raValues,
    fits := data.fits,
    heatTreatment := data.heatTreatment.map tr,
    rawText := tr data.rawText }

/-! ### `processPdfWithOCR` (src/unnamed/part_001:543-677) -/

/-- The slice of a browser `File` this function looks at. -/
structure OcrFile where
  size : Nat
  mimeType : String
deriving DecidableEq, Repr

/-- Outcome of the backend `fetch(API_BASE_URL + '/ocr/process')` call.
`ok` carries the optional `text`, `pages` and `processing_info` method
fields of the JSON response; `okNull` is a 2xx response whose JSON is null
(the `if (!result)` check); `fail` carries the thrown error message and
whether it was an `AbortError`. -/
inductive BackendOutcome where
  | ok (text : Option String) (pages : Option Nat) (methodUsed method : Option String)
  | okNull
  | fail (msg : String) (isAbort : Bool)
deriving DecidableEq, Repr

/-- The result object `processPdfWithOCR` resolves with. -/
structure OcrResult where
  text : String
  confidence : ℚ
  language : String
  pages : Nat
  model : String
  isCropped : Bool
deriving DecidableEq, Repr

/-- Case-sensitive literal match (used by `jsIncludes`). -/
def matchLitCS : List Char → List Char → Option (List Char)
  | [], s => some s
  | _ :: _, [] => none
  | p :: ps, c :: cs => if p == c then matchLitCS ps cs else none

/-- Case-sensitive `String.prototype.includes` on char lists. -/
def jsIncludes (needle : List Char) : List Char → Bool
  | [] => (matchLitCS needle []).isSome
  | c :: rest => (matchLitCS needle (c :: rest)).isSome || jsIncludes needle rest

/-- `processPdfWithOCR` (src/unnamed/part_001:543-677): send the file to the
backend unconditionally (there is no empty-input guard); on a backend error
rewrite timeout-ish messages and rethrow an `OCR processing failed` error
(the Groq fallback is disabled in this version).  The second component lists
the providers contacted. -/
def processPdfWithOCR (backend : BackendOutcome) (file : OcrFile) (languages : List String) :
    Except String OcrResult × List String :=
  match backend with
  | BackendOutcome.ok text pages methodUsed method =>
      (Except.ok
        { text := text.getD "",
          confidence := mkRat 9 10,
          language := String.intercalate "+" languages,
          pages := pages.getD 1,
          model := jsOrStr methodUsed (jsOrStr method "backend"),
          isCropped := file.mimeType ≠ "" && file.mimeType.startsWith "image/" },
       ["backend"])
  | BackendOutcome.okNull =>
      (Except.error ("OCR processing failed: " ++ "Backend вернул пустой ответ" ++
        ". Используется только OpenRouter + OCR fallback\x27и. Groq отключен."),
       ["backend"])
  | BackendOutcome.fail msg isAbort =>
      let errorMessage :=
        if isAbort || jsIncludes "timeout".data msg.data ||
            jsIncludes "failed to respond".data msg.data then
          "Таймаут при обработке OCR. Файл слишком большой или сервер перегружен. Попробуйте позже или используйте меньший файл."
        else msg
      (Except.error ("OCR processing failed: " ++ errorMessage ++
        ". Используется только OpenRouter + OCR fallback\x27и. Groq отключен."),
       ["backend"])

/-- The merge rule for an ordered-set field as the specification words it:
the AI record's sequence followed by exactly those pattern entries not
already present in it, in order.  Used to compare the implemented merge
against the specified one. -/
def specMergeField [DecidableEq α] (A B : List α) : List α :=
  A ++ B.filter (fun b => decide (b ∉ A))

/-! ## Lemmas about the de-duplication and accumulation combinators -/

theorem mem_jsSetAux [DecidableEq α] (l : List α) :
    ∀ (seen : List α) (x : α), x ∈ jsSetAux seen l ↔ x ∈ l ∧ x ∉ seen := by
  induction l with
  | nil => intro seen x; simp [jsSetAux]
  | cons a l ih =>
      intro seen x
      by_cases ha : a ∈ seen
      · rw [jsSetAux, if_pos ha, ih]
        constructor
        · rintro ⟨hx, hn⟩; exact ⟨List.mem_cons_of_mem a hx, hn⟩
        · rintro ⟨hx, hn⟩
          rcases List.mem_cons.mp hx with rfl | hx2
          · exact absurd ha hn
          · exact ⟨hx2, hn⟩
      · rw [jsSetAux, if_neg ha]
        constructor
        · intro hx
          rcases List.mem_cons.mp hx with rfl | hx2
          · exact ⟨List.mem_cons_self _ _, ha⟩
          · obtain ⟨hl, hns⟩ := (ih (a :: seen) x).mp hx2
            exact ⟨List.mem_cons_of_mem a hl,
              fun hs => hns (List.mem_cons_of_mem a hs)⟩
        · rintro ⟨hx, hn⟩
          rcases List.mem_cons.mp hx with rfl | hx2
          · exact List.mem_cons_self _ _
          · by_cases hxa : x = a
            · exact hxa ▸ List.mem_cons_self _ _
            · refine List.mem_cons_of_mem _ ((ih (a :: seen) x).mpr ⟨hx2, ?_⟩)
              intro hs
              rcases List.mem_cons.mp hs with h1 | h1
              · exact hxa h1
              · exact hn h1

theorem jsSetAux_nodup [DecidableEq α] (l : List α) :
    ∀ seen : List α, (jsSetAux seen l).Nodup := by
  induction l with
  | nil => intro seen; simp [jsSetAux]
  | cons a l ih =>
      intro seen
      by_cases ha : a ∈ seen
      · simpa [jsSetAux, ha] using ih seen
      · simp only [jsSetAux, if_neg ha, List.nodup_cons]
        refine ⟨fun hmem => ?_, ih (a :: seen)⟩
        exact ((mem_jsSetAux l (a :: seen) a).mp hmem).2 (List.mem_cons_self a seen)

theorem jsSetAux_congr [DecidableEq α] (l : List α) :
    ∀ {s1 s2 : List α}, (∀ x, x ∈ s1 ↔ x ∈ s2) → jsSetAux s1 l = jsSetAux s2 l := by
  induction l with
  | nil => intro s1 s2 _; rfl
  | cons a l ih =>
      intro s1 s2 h
      by_cases ha : a ∈ s1
      · simp only [jsSetAux, if_pos ha, if_pos ((h a).mp ha)]
        exact ih h
      · simp only [jsSetAux, if_neg ha, if_neg (fun hx => ha ((h a).mpr hx))]
        refine congrArg (a :: ·) (ih fun x => ?_)
        simp [List.mem_cons, h x]

theorem jsSetAux_append [DecidableEq α] (A : List α) :
    ∀ (seen B : List α), jsSetAux seen (A ++ B) = jsSetAux seen A ++ jsSetAux (A ++ seen) B := by
  induction A with
  | nil => intro seen B; simp [jsSetAux]
  | cons a A ih =>
      intro seen B
      by_cases ha : a ∈ seen
      · calc jsSetAux seen ((a :: A) ++ B)
            = jsSetAux seen (A ++ B) := by rw [List.cons_append, jsSetAux, if_pos ha]
          _ = jsSetAux seen A ++ jsSetAux (A ++ seen) B := ih seen B
          _ = jsSetAux seen A ++ jsSetAux ((a :: A) ++ seen) B := by
                refine congrArg (fun t => jsSetAux seen A ++ t) (jsSetAux_congr B fun x => ?_)
                simp only [List.cons_append, List.mem_append, List.mem_cons]
                constructor
                · tauto
                · rintro (rfl | hx | hx)
                  · exact Or.inr ha
                  · exact Or.inl hx
                  · exact Or.inr hx
          _ = jsSetAux seen (a :: A) ++ jsSetAux ((a :: A) ++ seen) B := by
                rw [jsSetAux, if_pos ha]
      · calc jsSetAux seen ((a :: A) ++ B)
            = a :: jsSetAux (a :: seen) (A ++ B) := by
                rw [List.cons_append, jsSetAux, if_neg ha]
          _ = a :: (jsSetAux (a :: seen) A ++ jsSetAux (A ++ (a :: seen)) B) := by
                rw [ih (a :: seen) B]
          _ = a :: (jsSetAux (a :: seen) A ++ jsSetAux ((a :: A) ++ seen) B) := by
                refine congrArg (fun t => a :: (jsSetAux (a :: seen) A ++ t))
                  (jsSetAux_congr B fun x => ?_)
                simp only [List.cons_append, List.mem_append, List.mem_cons]
                tauto
          _ = jsSetAux seen (a :: A) ++ jsSetAux ((a :: A) ++ seen) B := by
                rw [jsSetAux, if_neg ha]; simp

theorem jsSetAux_of_nodup [DecidableEq α] {B : List α} (hB : B.Nodup) :
    ∀ seen : List α, jsSetAux seen B = B.filter (fun b => decide (b ∉ seen)) := by
  induction B with
  | nil => intro seen; rfl
  | cons b B ih =>
      intro seen
      rcases List.nodup_cons.mp hB with ⟨hbB, hB2⟩
      by_cases hb : b ∈ seen
      · simp only [jsSetAux, if_pos hb, List.filter_cons, decide_eq_true_eq]
        rw [if_neg (by simpa using hb)]
        exact ih hB2 seen
      · simp only [jsSetAux, if_neg hb, List.filter_cons, decide_eq_true_eq]
        rw [if_pos (by simpa using hb)]
        refine congrArg (b :: ·) ?_
        rw [ih hB2 (b :: seen)]
        refine List.filter_congr fun x hx => ?_
        have hxb : x ≠ b := fun h => hbB (h ▸ hx)
        simp [List.mem_cons, hxb]

theorem jsSet_nodup [DecidableEq α] (l : List α) : (jsSet l).Nodup :=
  jsSetAux_nodup l []

theorem jsSet_union [DecidableEq α] {A B : List α} (hA : A.Nodup) (hB : B.Nodup) :
    jsSet (A ++ B) = specMergeField A B := by
  unfold jsSet specMergeField
  rw [jsSetAux_append A [] B, jsSetAux_of_nodup hA [], jsSetAux_of_nodup hB (A ++ [])]
  simp

theorem foldl_nodup_of_step {α β : Type} (f : List α → β → List α)
    (hf : ∀ acc b, acc.Nodup → (f acc b).Nodup) :
    ∀ (l : List β) (acc : List α), acc.Nodup → (l.foldl f acc).Nodup := by
  intro l
  induction l with
  | nil => intro acc h; exact h
  | cons b l ih => intro acc h; exact ih (f acc b) (hf acc b h)

theorem foldl_forall_of_step {α β : Type} (f : List α → β → List α) (P : α → Prop) :
    ∀ (l : List β), (∀ acc b, b ∈ l → (∀ y ∈ acc, P y) → ∀ x ∈ f acc b, P x) →
      ∀ acc : List α, (∀ y ∈ acc, P y) → ∀ x ∈ l.foldl f acc, P x := by
  intro l
  induction l with
  | nil => intro _ acc h; exact h
  | cons b l ih =>
      intro hf acc h
      exact ih (fun a2 b2 hb2 => hf a2 b2 (List.mem_cons_of_mem b hb2)) (f acc b)
        (hf acc b (List.mem_cons_self b l) h)

theorem pushUnique_nodup [DecidableEq α] (acc : List α) (x : α) (h : acc.Nodup) :
    (pushUnique acc x).Nodup := by
  unfold pushUnique
  split
  · exact h
  · next hx => simp [List.nodup_append, h, hx]

theorem mem_pushUnique [DecidableEq α] (acc : List α) (x y : α)
    (h : y ∈ pushUnique acc x) : y ∈ acc ∨ y = x := by
  unfold pushUnique at h
  split at h
  · exact Or.inl h
  · rcases List.mem_append.mp h with h2 | h2
    · exact Or.inl h2
    · exact Or.inr (by simpa using h2)

theorem pushIfNew_nodup (acc : List String) (m : String) (h : acc.Nodup) :
    (pushIfNew acc m).Nodup := by
  unfold pushIfNew
  split
  · next hc => simp [List.nodup_append, h, hc.2]
  · exact h

theorem pushTreatment_nodup (acc : List String) (cap : List Char) (h : acc.Nodup) :
    (pushTreatment acc cap).Nodup := by
  unfold pushTreatment
  split
  · next hc => simp [List.nodup_append, h, hc.2]
  · exact h

theorem pushRa_nodup (acc : List ℚ) (cap : List Char) (h : acc.Nodup) :
    (pushRa acc cap).Nodup := by
  unfold pushRa
  split
  · exact h
  · split
    · next hc => simp [List.nodup_append, h, hc.2]
    · exact h

theorem mem_pushRa (acc : List ℚ) (cap : List Char) (x : ℚ)
    (h : x ∈ pushRa acc cap) : x ∈ acc ∨ 0 < x := by
  unfold pushRa at h
  split at h
  · exact Or.inl h
  · next ra _ =>
      split at h
      · next hc =>
          rcases List.mem_append.mp h with h2 | h2
          · exact Or.inl h2
          · have : x = ra := by simpa using h2
            exact Or.inr (this ▸ hc.1)
      · exact Or.inl h

theorem mem_scanAllAux {m : Matcher} :
    ∀ {fuel : Nat} {s cap : List Char}, cap ∈ scanAllAux m fuel s →
      ∃ s2 r, m s2 = some (cap, r) := by
  intro fuel
  induction fuel with
  | zero => intro s cap h; simp [scanAllAux] at h
  | succ fuel ih =>
      intro s cap h
      match s with
      | [] =>
          simp only [scanAllAux] at h
          match hm : m [] with
          | some (cap2, r) =>
              rw [hm] at h
              simp at h
              exact ⟨[], r, by rw [hm, h]⟩
          | none => rw [hm] at h; simp at h
      | c :: rest =>
          simp only [scanAllAux] at h
          match hm : m (c :: rest) with
          | some (cap2, r) =>
              rw [hm] at h
              rcases List.mem_cons.mp h with rfl | h2
              · exact ⟨c :: rest, r, hm⟩
              · exact ih h2
          | none => rw [hm] at h; exact ih h

theorem mem_scanAll {m : Matcher} {s cap : List Char} (h : cap ∈ scanAll m s) :
    ∃ s2 r, m s2 = some (cap, r) :=
  mem_scanAllAux h

/-! ## Lemmas about the individual pattern extractors -/

theorem extractMaterials_nodup (text : String) : (extractMaterials text).Nodup :=
  jsSet_nodup _

theorem extractGOSTStandards_nodup (text : String) : (extractGOSTStandards text).Nodup := by
  unfold extractGOSTStandards
  refine foldl_nodup_of_step _ ?_ stdPatterns [] List.nodup_nil
  intro acc pm hacc
  exact foldl_nodup_of_step _ (fun acc2 cap h2 => pushUnique_nodup acc2 _ h2) _ acc hacc

theorem extractFits_nodup (text : String) : (extractFits text).Nodup := by
  unfold extractFits
  refine foldl_nodup_of_step _ ?_ fitPatterns [] List.nodup_nil
  intro acc m hacc
  exact foldl_nodup_of_step _ (fun acc2 cap h2 => pushUnique_nodup acc2 _ h2) _ acc hacc

theorem extractHeatTreatment_nodup (text : String) : (extractHeatTreatment text).Nodup := by
  unfold extractHeatTreatment
  refine foldl_nodup_of_step _ ?_ treatmentPatterns [] List.nodup_nil
  intro acc m hacc
  refine foldl_nodup_of_step _ ?_ _ acc hacc
  intro acc2 cap h2
  unfold pushTreatment
  split
  · next hc => simp [List.nodup_append, h2, hc.2]
  · exact h2

theorem raCollected_nodup (text : String) :
    (raPatterns.foldl (fun acc m => (scanAll m text.data).foldl pushRa acc) []).Nodup := by
  refine foldl_nodup_of_step _ ?_ raPatterns [] List.nodup_nil
  intro acc m hacc
  exact foldl_nodup_of_step _ (fun acc2 cap h2 => pushRa_nodup acc2 _ h2) _ acc hacc

theorem raCollected_pos (text : String) :
    ∀ q ∈ raPatterns.foldl (fun acc m => (scanAll m text.data).foldl pushRa acc) [], 0 < q := by
  refine foldl_forall_of_step _ (fun q => 0 < q) raPatterns ?_ [] (by simp)
  intro acc m _ hacc
  refine foldl_forall_of_step _ _ _ ?_ acc hacc
  intro acc2 cap _ h2 x hx
  exact (mem_pushRa acc2 cap x hx).elim (h2 x) id

theorem extractRaValues_nodup (text : String) : (extractRaValues text).Nodup := by
  unfold extractRaValues
  exact ((List.perm_insertionSort _ _).nodup_iff).mpr (raCollected_nodup text)

theorem extractRaValues_sorted (text : String) :
    (extractRaValues text).Sorted (· ≤ ·) :=
  List.sorted_insertionSort _ _

theorem extractRaValues_pos (text : String) : ∀ q ∈ extractRaValues text, 0 < q := by
  intro q hq
  exact raCollected_pos text q ((List.perm_insertionSort _ _).mem_iff.mp hq)

theorem capStdNum_chars {seps r cap rest : List Char}
    (h : capStdNum seps r = some (cap, rest)) :
    cap ≠ [] ∧ ∀ c ∈ cap, isDigitCh c = true ∨ c ∈ seps := by
  unfold capStdNum at h
  by_cases hds : (r.takeWhile isDigitCh).isEmpty = true
  · rw [if_pos hds] at h; cases h
  · rw [if_neg hds] at h
    have hne : r.takeWhile isDigitCh ≠ [] := by simpa [List.isEmpty_iff] using hds
    cases hdrop : r.dropWhile isDigitCh with
    | nil =>
        rw [hdrop] at h
        dsimp only at h
        cases h
        exact ⟨hne, fun ch hch => Or.inl (List.mem_takeWhile_imp hch)⟩
    | cons c r4 =>
        rw [hdrop] at h
        dsimp only at h
        by_cases hc : c ∈ seps
        · rw [if_pos hc] at h
          cases h
          refine ⟨by simp, ?_⟩
          intro ch hch
          rcases List.mem_append.mp hch with h1 | h1
          · exact Or.inl (List.mem_takeWhile_imp h1)
          · rcases List.mem_cons.mp h1 with rfl | h2
            · exact Or.inr hc
            · exact Or.inl (List.mem_takeWhile_imp h2)
        · rw [if_neg hc] at h
          cases h
          exact ⟨hne, fun ch hch => Or.inl (List.mem_takeWhile_imp hch)⟩

theorem capStdSep_chars {sep : Char} {r cap rest : List Char}
    (h : capStdSep sep r = some (cap, rest)) :
    cap ≠ [] ∧ ∀ c ∈ cap, isDigitCh c = true ∨ c = sep := by
  unfold capStdSep at h
  by_cases hds : (r.takeWhile isDigitCh).isEmpty = true
  · rw [if_pos hds] at h; cases h
  · rw [if_neg hds] at h
    cases hdrop : r.dropWhile isDigitCh with
    | nil => rw [hdrop] at h; dsimp only at h; cases h
    | cons c r4 =>
        rw [hdrop] at h
        dsimp only at h
        by_cases hc : (c == sep && !(r4.takeWhile isDigitCh).isEmpty) = true
        · rw [if_pos hc] at h
          cases h
          refine ⟨by simp, ?_⟩
          intro ch hch
          rcases List.mem_append.mp hch with h1 | h1
          · exact Or.inl (List.mem_takeWhile_imp h1)
          · rcases List.mem_cons.mp h1 with rfl | h2
            · simp only [Bool.and_eq_true, beq_iff_eq] at hc
              exact Or.inr hc.1
            · exact Or.inl (List.mem_takeWhile_imp h2)
        · rw [if_neg hc] at h
          cases h

theorem mStd_some {lit : String} {cf : List Char → Option (List Char × List Char)}
    {s cap rest : List Char} (h : mStd lit cf s = some (cap, rest)) :
    ∃ r, cf r = some (cap, rest) := by
  unfold mStd at h
  cases hm : matchLitCI lit.data s with
  | none => rw [hm] at h; cases h
  | some r1 => rw [hm] at h; exact ⟨r1.dropWhile isJsSpace, h⟩

theorem stdNumDots_form {r cap rest : List Char}
    (h : capStdNum ['-', '.'] r = some (cap, rest)) :
    cap ≠ [] ∧ ∀ c ∈ cap, isDigitCh c = true ∨ c = '-' ∨ c = '.' := by
  obtain ⟨h1, h2⟩ := capStdNum_chars h
  exact ⟨h1, fun c hc => (h2 c hc).imp id (fun hm => by simpa using hm)⟩

theorem stdSepDot_form {r cap rest : List Char}
    (h : capStdSep '.' r = some (cap, rest)) :
    cap ≠ [] ∧ ∀ c ∈ cap, isDigitCh c = true ∨ c = '-' ∨ c = '.' := by
  obtain ⟨h1, h2⟩ := capStdSep_chars h
  exact ⟨h1, fun c hc => (h2 c hc).imp id (fun he => Or.inr he)⟩

theorem stdSepDash_form {r cap rest : List Char}
    (h : capStdSep '-' r = some (cap, rest)) :
    cap ≠ [] ∧ ∀ c ∈ cap, isDigitCh c = true ∨ c = '-' ∨ c = '.' := by
  obtain ⟨h1, h2⟩ := capStdSep_chars h
  exact ⟨h1, fun c hc => (h2 c hc).imp id (fun he => Or.inl he)⟩

theorem str_pfx_append (p q n : String) (hpq : p ++ " " = q) :
    p ++ " " ++ n = q ++ n :=
  congrArg (fun t => t ++ n) hpq

/-- Claim C6 amended: every element the standards extractor produces, on any
input, is of the form `"<PREFIX> <number>"` where PREFIX is one of the
Cyrillic `ГОСТ`, `ОСТ`, `ТУ` (not the Latin `GOST`, `OST`, `TU` of the
claim) and the number part is a non-empty run of digits, dashes and dots. -/
theorem extractGOSTStandards_form (text : String) :
    ∀ s ∈ extractGOSTStandards text, ∃ num : String,
      (s = "ГОСТ " ++ num ∨ s = "ОСТ " ++ num ∨ s = "ТУ " ++ num) ∧
      num ≠ "" ∧ ∀ c ∈ num.data, isDigitCh c = true ∨ c = '-' ∨ c = '.' := by
  intro s hs
  unfold extractGOSTStandards at hs
  refine foldl_forall_of_step _
    (fun s => ∃ num : String,
      (s = "ГОСТ " ++ num ∨ s = "ОСТ " ++ num ∨ s = "ТУ " ++ num) ∧
      num ≠ "" ∧ ∀ c ∈ num.data, isDigitCh c = true ∨ c = '-' ∨ c = '.')
    stdPatterns ?_ [] (by simp) s hs
  intro acc pm hpm hacc
  refine foldl_forall_of_step _ _ _ ?_ acc hacc
  intro acc2 cap hcap h2 y hy
  rcases mem_pushUnique acc2 _ y hy with h3 | rfl
  · exact h2 y h3
  · obtain ⟨s2, r, hm⟩ := mem_scanAll hcap
    simp only [stdPatterns, List.mem_cons, List.not_mem_nil, or_false] at hpm
    rcases hpm with rfl | rfl | rfl | rfl | rfl | rfl | rfl | rfl | rfl
    · obtain ⟨r2, hcf⟩ := mStd_some hm
      obtain ⟨h4, h5⟩ := stdNumDots_form hcf
      exact ⟨String.mk cap, Or.inl (str_pfx_append _ _ _ (by decide)),
        fun he => h4 (by simpa [String.ext_iff] using he), h5⟩
    · obtain ⟨r2, hcf⟩ := mStd_some hm
      obtain ⟨h4, h5⟩ := stdNumDots_form hcf
      exact ⟨String.mk cap, Or.inl (str_pfx_append _ _ _ (by decide)),
        fun he => h4 (by simpa [String.ext_iff] using he), h5⟩
    · obtain ⟨r2, hcf⟩ := mStd_some hm
      obtain ⟨h4, h5⟩ := stdSepDot_form hcf
      exact ⟨String.mk cap, Or.inl (str_pfx_append _ _ _ (by decide)),
        fun he => h4 (by simpa [String.ext_iff] using he), h5⟩
    · obtain ⟨r2, hcf⟩ := mStd_some hm
      obtain ⟨h4, h5⟩ := stdSepDash_form hcf
      exact ⟨String.mk cap, Or.inl (str_pfx_append _ _ _ (by decide)),
        fun he => h4 (by simpa [String.ext_iff] using he), h5⟩
    · obtain ⟨r2, hcf⟩ := mStd_some hm
      obtain ⟨h4, h5⟩ := stdNumDots_form hcf
      exact ⟨String.mk cap, Or.inr (Or.inl (str_pfx_append _ _ _ (by decide))),
        fun he => h4 (by simpa [String.ext_iff] using he), h5⟩
    · obtain ⟨r2, hcf⟩ := mStd_some hm
      obtain ⟨h4, h5⟩ := stdNumDots_form hcf
      exact ⟨String.mk cap, Or.inr (Or.inl (str_pfx_append _ _ _ (by decide))),
        fun he => h4 (by simpa [String.ext_iff] using he), h5⟩
    · obtain ⟨r2, hcf⟩ := mStd_some hm
      obtain ⟨h4, h5⟩ := stdNumDots_form hcf
      exact ⟨String.mk cap, Or.inr (Or.inr (str_pfx_append _ _ _ (by decide))),
        fun he => h4 (by simpa [String.ext_iff] using he), h5⟩
    · obtain ⟨r2, hcf⟩ := mStd_some hm
      obtain ⟨h4, h5⟩ := stdNumDots_form hcf
      exact ⟨String.mk cap, Or.inr (Or.inr (str_pfx_append _ _ _ (by decide))),
        fun he => h4 (by simpa [String.ext_iff] using he), h5⟩
    · obtain ⟨r2, hcf⟩ := mStd_some hm
      obtain ⟨h4, h5⟩ := stdSepDot_form hcf
      exact ⟨String.mk cap, Or.inr (Or.inr (str_pfx_append _ _ _ (by decide))),
        fun he => h4 (by simpa [String.ext_iff] using he), h5⟩

/-! ## Evaluation lemmas for `extractAllData` -/

theorem extractAllData_ok (d : AiData) (g : AiOutcome) (t : String) :
    extractAllData (AiOutcome.ok d) g t =
      ({ materials := jsSet (d.materials.getD [] ++ extractMaterials t),
         standards := jsSet (d.standards.getD [] ++ extractGOSTStandards t),
         raValues := List.insertionSort (· ≤ ·) (jsSet (d.raValues.getD [] ++ extractRaValues t)),
         fits := jsSet (d.fits.getD [] ++ extractFits t),
         heatTreatment := jsSet (d.heatTreatment.getD [] ++ extractHeatTreatment t),
         rawText := t }, ["openrouter"]) := rfl

theorem extractAllData_fail_ok (d : AiData) (t : String) :
    extractAllData AiOutcome.fail (AiOutcome.ok d) t =
      ({ materials := jsSet (d.materials.getD [] ++ extractMaterials t),
         standards := jsSet (d.standards.getD [] ++ extractGOSTStandards t),
         raValues := List.insertionSort (· ≤ ·) (jsSet (d.raValues.getD [] ++ extractRaValues t)),
         fits := jsSet (d.fits.getD [] ++ extractFits t),
         heatTreatment := jsSet (d.heatTreatment.getD [] ++ extractHeatTreatment t),
         rawText := t }, ["openrouter", "groq"]) := rfl

theorem extractAllData_fail_fail (t : String) :
    extractAllData AiOutcome.fail AiOutcome.fail t =
      ({ materials := extractMaterials t,
         standards := extractGOSTStandards t,
         raValues := extractRaValues t,
         fits := extractFits t,
         heatTreatment := extractHeatTreatment t,
         rawText := t }, ["openrouter", "groq"]) := rfl

/-! ## Lemmas about the Groq model loop -/

theorem callGroqGo_success (outcome : Nat → ModelOutcome) :
    ∀ (models : List String) (i0 : Nat) (le : Option String) (i : Nat) (mi c u : String),
      models.get? i = some mi →
      (∀ j, j < i → ∃ m, outcome (i0 + j) = ModelOutcome.fail m) →
      outcome (i0 + i) = ModelOutcome.ok c u →
      callGroqGo outcome models i0 le = (Except.ok ⟨c, mi, u⟩, models.take (i + 1)) := by
  intro models
  induction models with
  | nil => intro i0 le i mi c u hget; simp at hget
  | cons m rest ih =>
      intro i0 le i mi c u hget hfail hok
      cases i with
      | zero =>
          have hmi : m = mi := by simpa using hget
          have h0 : outcome i0 = ModelOutcome.ok c u := by simpa using hok
          subst hmi
          simp [callGroqGo, h0, List.take]
      | succ i2 =>
          obtain ⟨msg, hmsg⟩ := hfail 0 (Nat.succ_pos i2)
          have hmsg0 : outcome i0 = ModelOutcome.fail msg := by simpa using hmsg
          have hrec := ih (i0 + 1) (some msg) i2 mi c u (by simpa using hget)
            (fun j hj => by
              obtain ⟨m2, hm2⟩ := hfail (j + 1) (Nat.succ_lt_succ hj)
              exact ⟨m2, by rw [show i0 + 1 + j = i0 + (j + 1) by omega]; exact hm2⟩)
            (by rw [show i0 + 1 + i2 = i0 + (i2 + 1) by omega]; exact hok)
          simp [callGroqGo, hmsg0, hrec, List.take]

theorem callGroqGo_cons_fail (outcome : Nat → ModelOutcome) (m : String)
    (rest : List String) (i : Nat) (le : Option String) (msg : String)
    (h : outcome i = ModelOutcome.fail msg) :
    callGroqGo outcome (m :: rest) i le =
      ((callGroqGo outcome rest (i + 1) (some msg)).1,
       m :: (callGroqGo outcome rest (i + 1) (some msg)).2) := by
  simp only [callGroqGo, h]

theorem callGroqGo_allfail (outcome : Nat → ModelOutcome) :
    ∀ (models : List String) (i0 : Nat) (le : Option String) (lastMsg : String),
      models ≠ [] → lastMsg ≠ "" →
      (∀ j, j < models.length → ∃ m, outcome (i0 + j) = ModelOutcome.fail m) →
      outcome (i0 + (models.length - 1)) = ModelOutcome.fail lastMsg →
      (callGroqGo outcome models i0 le).1 =
        Except.error ("All models failed. Last error: " ++ lastMsg) := by
  intro models
  induction models with
  | nil => intro i0 le lastMsg h; exact absurd rfl h
  | cons m rest ih =>
      intro i0 le lastMsg _ hlm hfail hlast
      cases rest with
      | nil =>
          have h0 : outcome i0 = ModelOutcome.fail lastMsg := by simpa using hlast
          simp [callGroqGo, h0, jsOrStr, hlm]
      | cons m2 rest2 =>
          obtain ⟨msg, hmsg⟩ := hfail 0 (by simp)
          have hmsg0 : outcome i0 = ModelOutcome.fail msg := by simpa using hmsg
          have hrec := ih (i0 + 1) (some msg) lastMsg (by simp) hlm
            (fun j hj => by
              obtain ⟨m3, hm3⟩ := hfail (j + 1) (by simpa using Nat.succ_lt_succ hj)
              exact ⟨m3, by rw [show i0 + 1 + j = i0 + (j + 1) by omega]; exact hm3⟩)
            (by
              rw [show i0 + 1 + ((m2 :: rest2).length - 1) =
                i0 + ((m :: m2 :: rest2).length - 1) by simp; omega]
              exact hlast)
          rw [callGroqGo_cons_fail outcome m (m2 :: rest2) i0 le msg hmsg0]
          exact hrec

/-! ## Claim theorems -/

/-- Claim C1: for every non-empty model list `callGroqAPI` attempts the
models strictly in list order: if the attempt at index `i` succeeds (all
earlier attempts having failed), it returns that model's content with
`model` equal to that identifier and the attempted-model list is exactly the
first `i + 1` models (no later model is attempted); if every attempt fails
it throws `All models failed` carrying the last failure's (non-empty)
message. -/
theorem callGroqAPI_first_success_wins (apiKey : String) (models : List String)
    (outcome : Nat → ModelOutcome) (hk : apiKey ≠ "") :
    (∀ i mi c u, models.get? i = some mi →
        (∀ j, j < i → ∃ m, outcome j = ModelOutcome.fail m) →
        outcome i = ModelOutcome.ok c u →
        callGroqAPI apiKey models outcome =
          (Except.ok ⟨c, mi, u⟩, models.take (i + 1))) ∧
    (∀ lastMsg, models ≠ [] → lastMsg ≠ "" →
        (∀ j, j < models.length → ∃ m, outcome j = ModelOutcome.fail m) →
        outcome (models.length - 1) = ModelOutcome.fail lastMsg →
        (callGroqAPI apiKey models outcome).1 =
          Except.error ("All models failed. Last error: " ++ lastMsg)) := by
  constructor
  · intro i mi c u hget hfail hok
    unfold callGroqAPI
    rw [if_neg hk]
    refine callGroqGo_success outcome models 0 none i mi c u hget ?_ (by simpa using hok)
    intro j hj
    obtain ⟨m2, hm2⟩ := hfail j hj
    exact ⟨m2, by simpa using hm2⟩
  · intro lastMsg hne hlm hfail hlast
    unfold callGroqAPI
    rw [if_neg hk]
    refine callGroqGo_allfail outcome models 0 none lastMsg hne hlm ?_ (by simpa using hlast)
    intro j hj
    obtain ⟨m2, hm2⟩ := hfail j hj
    exact ⟨m2, by simpa using hm2⟩

/-- Witness for C1 on a concrete chain: model 1 fails, model 2 succeeds with
its own content, model 3 is never attempted, and on an all-fail chain the
error carries the last failure's message. -/
theorem callGroqAPI_first_success_wins_witness :
    callGroqAPI "key" ["m1", "m2", "m3"]
        (fun j => if j = 0 then ModelOutcome.fail "boom"
                  else ModelOutcome.ok "content" "usage") =
      (Except.ok ⟨"content", "m2", "usage"⟩, ["m1", "m2"]) := by
  have h := (callGroqAPI_first_success_wins "key" ["m1", "m2", "m3"]
    (fun j => if j = 0 then ModelOutcome.fail "boom"
              else ModelOutcome.ok "content" "usage")
    (by decide)).1 1 "m2" "content" "usage" rfl ?_ rfl
  · exact h
  · intro j hj
    have hj0 : j = 0 := Nat.lt_one_iff.mp hj
    exact ⟨"boom", by rw [hj0]; rfl⟩

/-- Claim C2: with an unconfigured (empty) Groq key, `callGroqAPI` throws
the configuration error immediately and attempts zero models, for every
model list and every attempt oracle. -/
theorem callGroqAPI_missing_key (models : List String) (outcome : Nat → ModelOutcome) :
    callGroqAPI "" models outcome =
      (Except.error "Groq API key not configured. Set VITE_GROQ_API_KEY in .env", []) :=
  rfl

/-- Claim C3 counterexample: on empty input both entry points still attempt
their providers — `extractAllData ""` issues the OpenRouter and Groq
attempts and returns a record, and `processPdfWithOCR` on a zero-byte file
contacts the backend — so there is no `InvalidInput` fail-fast. -/
theorem emptyInput_providers_attempted :
    (extractAllData AiOutcome.fail AiOutcome.fail "").2 = ["openrouter", "groq"] ∧
    (processPdfWithOCR (BackendOutcome.fail "HTTP 500" false)
        ⟨0, "application/pdf"⟩ ["rus"]).2 = ["backend"] :=
  ⟨rfl, rfl⟩

/-- Claim C3 amended: neither entry point rejects empty input.
`extractAllData` on the empty string always attempts OpenRouter first (then
Groq on failure) and, when every AI provider fails, returns the record with
all-empty collections and empty raw text instead of an `InvalidInput`
error; `processPdfWithOCR` contacts the backend even for a zero-byte file. -/
theorem emptyInput_no_failfast :
    (∀ o g : AiOutcome, (extractAllData o g "").2.head? = some "openrouter") ∧
    extractAllData AiOutcome.fail AiOutcome.fail "" =
      ({ materials := [], standards := [], raValues := [], fits := [],
         heatTreatment := [], rawText := "" }, ["openrouter", "groq"]) ∧
    (∀ (b : BackendOutcome) (f : OcrFile) (langs : List String),
        (processPdfWithOCR b f langs).2 = ["backend"]) := by
  refine ⟨?_, rfl, ?_⟩
  · intro o g
    cases o <;> cases g <;> rfl
  · intro b f langs
    cases b <;> rfl

/-- Claim C4: for each ordered-set field the implemented merge equals the AI
record's sequence followed by exactly those pattern entries not already
present in it, preserving first-seen order with no duplicates; in
particular materials `["X"]` merged against pattern materials `["X", "Y"]`
give `["X", "Y"]`. -/
theorem merge_union_fields (d : AiData) (g : AiOutcome) (t : String)
    (hm : (d.materials.getD []).Nodup) (hs : (d.standards.getD []).Nodup)
    (hf : (d.fits.getD []).Nodup) (hh : (d.heatTreatment.getD []).Nodup) :
    ((extractAllData (AiOutcome.ok d) g t).1.materials =
        specMergeField (d.materials.getD []) (extractMaterials t) ∧
      (extractAllData (AiOutcome.ok d) g t).1.standards =
        specMergeField (d.standards.getD []) (extractGOSTStandards t) ∧
      (extractAllData (AiOutcome.ok d) g t).1.fits =
        specMergeField (d.fits.getD []) (extractFits t) ∧
      (extractAllData (AiOutcome.ok d) g t).1.heatTreatment =
        specMergeField (d.heatTreatment.getD []) (extractHeatTreatment t)) ∧
    (extractAllData (AiOutcome.ok ⟨some ["X"], some [], some [], some [], some []⟩)
        AiOutcome.fail "Steel X Steel Y").1.materials = ["X", "Y"] := by
  refine ⟨⟨?_, ?_, ?_, ?_⟩, by decide⟩
  · rw [extractAllData_ok]
    exact jsSet_union hm (extractMaterials_nodup t)
  · rw [extractAllData_ok]
    exact jsSet_union hs (extractGOSTStandards_nodup t)
  · rw [extractAllData_ok]
    exact jsSet_union hf (extractFits_nodup t)
  · rw [extractAllData_ok]
    exact jsSet_union hh (extractHeatTreatment_nodup t)

/-- Witness for C4 at the concrete merge of the claim: materials `["X"]`
against pattern text producing `["X", "Y"]`. -/
theorem merge_union_fields_witness :
    (extractAllData (AiOutcome.ok ⟨some ["X"], some [], some [], some [], some []⟩)
        AiOutcome.fail "Steel X Steel Y").1.materials = ["X", "Y"] :=
  (merge_union_fields ⟨some ["X"], some [], some [], some [], some []⟩ AiOutcome.fail
    "Steel X Steel Y" (by decide) (by decide) (by decide) (by decide)).2

/-- Claim C5: every record `extractAllData` returns satisfies the record
invariant, for every input text and every AI payload accepted by the merge:
each collection is free of exact duplicates, `raValues` is sorted ascending
with duplicates removed, and no field is ever absent — `rawText` is always
the input and the other fields are (possibly empty) collections. -/
theorem extractAllData_invariant (o g : AiOutcome) (ocrText : String) :
    ((extractAllData o g ocrText).1.materials).Nodup ∧
    ((extractAllData o g ocrText).1.standards).Nodup ∧
    ((extractAllData o g ocrText).1.fits).Nodup ∧
    ((extractAllData o g ocrText).1.heatTreatment).Nodup ∧
    ((extractAllData o g ocrText).1.raValues).Nodup ∧
    ((extractAllData o g ocrText).1.raValues).Sorted (· ≤ ·) ∧
    (extractAllData o g ocrText).1.rawText = ocrText := by
  cases o with
  | ok d =>
      rw [extractAllData_ok]
      exact ⟨jsSet_nodup _, jsSet_nodup _, jsSet_nodup _, jsSet_nodup _,
        ((List.perm_insertionSort _ _).nodup_iff).mpr (jsSet_nodup _),
        List.sorted_insertionSort _ _, rfl⟩
  | fail =>
      cases g with
      | ok d =>
          rw [extractAllData_fail_ok]
          exact ⟨jsSet_nodup _, jsSet_nodup _, jsSet_nodup _, jsSet_nodup _,
            ((List.perm_insertionSort _ _).nodup_iff).mpr (jsSet_nodup _),
            List.sorted_insertionSort _ _, rfl⟩
      | fail =>
          rw [extractAllData_fail_fail]
          exact ⟨extractMaterials_nodup _, extractGOSTStandards_nodup _,
            extractFits_nodup _, extractHeatTreatment_nodup _,
            extractRaValues_nodup _, extractRaValues_sorted _, rfl⟩

/-- Claim C6 counterexample: the standards extractor prefixes its outputs
with the Cyrillic `ГОСТ`/`ОСТ`/`ТУ`, never the Latin `GOST`/`OST`/`TU`: on
input `"GOST 123"` it produces the element `"ГОСТ 123"`, which is not of
the form `"<PREFIX> <number>"` for any Latin prefix. -/
theorem extractGOSTStandards_latin_prefix_false :
    "ГОСТ 123" ∈ extractGOSTStandards "GOST 123" ∧
    ∀ num : String, "ГОСТ 123" ≠ "GOST " ++ num ∧ "ГОСТ 123" ≠ "OST " ++ num ∧
      "ГОСТ 123" ≠ "TU " ++ num := by
  constructor
  · rw [show extractGOSTStandards "GOST 123" = ["ГОСТ 123", "ОСТ 123"] from rfl]
    exact List.mem_cons_self _ _
  · intro num
    refine ⟨?_, ?_, ?_⟩ <;> intro h <;>
      · have h2 := congrArg (fun s => s.data.head?) h
        simp [String.data_append] at h2

/-- Witness for C6 (amended): applying the shape theorem at a concrete
input exhibits the Cyrillic-prefixed form. -/
theorem extractGOSTStandards_form_witness :
    ∃ num : String,
      ("ГОСТ 12" = "ГОСТ " ++ num ∨ "ГОСТ 12" = "ОСТ " ++ num ∨
        "ГОСТ 12" = "ТУ " ++ num) ∧
      num ≠ "" ∧ ∀ c ∈ num.data, isDigitCh c = true ∨ c = '-' ∨ c = '.' :=
  extractGOSTStandards_form "ГОСТ 12" "ГОСТ 12"
    (by rw [show extractGOSTStandards "ГОСТ 12" = ["ГОСТ 12", "ОСТ 12"] from rfl]
        exact List.mem_cons_self _ _)

/-- Claim C7: the five pattern extractors are total on arbitrary text and
return valid collections: every result is duplicate-free, every extracted
roughness value parsed as a positive number (failed or non-positive parses
are silently discarded) and the list is sorted, and the empty input yields
all-empty collections. -/
theorem patternExtractors_total (text : String) :
    (extractMaterials text).Nodup ∧ (extractGOSTStandards text).Nodup ∧
    (extractRaValues text).Nodup ∧ (extractRaValues text).Sorted (· ≤ ·) ∧
    (∀ q ∈ extractRaValues text, 0 < q) ∧
    (extractFits text).Nodup ∧ (extractHeatTreatment text).Nodup ∧
    extractMaterials "" = [] ∧ extractGOSTStandards "" = [] ∧
    extractRaValues "" = [] ∧ extractFits "" = [] ∧ extractHeatTreatment "" = [] :=
  ⟨extractMaterials_nodup text, extractGOSTStandards_nodup text,
   extractRaValues_nodup text, extractRaValues_sorted text, extractRaValues_pos text,
   extractFits_nodup text, extractHeatTreatment_nodup text, rfl, rfl, rfl, rfl, rfl⟩

/-- Witness for C7: positivity instantiated at the one roughness value the
extractor finds in `"Ra 3.2"`. -/
theorem patternExtractors_total_witness : (0 : ℚ) < mkRat 16 5 :=
  (patternExtractors_total "Ra 3.2").2.2.2.2.1 (mkRat 16 5)
    (by rw [show extractRaValues "Ra 3.2" = [mkRat 16 5] from rfl]
        exact List.mem_cons_self _ _)

/-- Claim C8: on the end-to-end sample text the pattern extractors find
material `45`, standard `ГОСТ 1050-2013`, exactly the roughness value 3.2,
exactly the fit `H7/F7`, and the non-empty hardening entry `HRC 45-50`. -/
theorem endToEnd_sample :
    "45" ∈ extractMaterials
        "Сталь 45, ГОСТ 1050-2013, Ra 3.2, H7/f7, закалка HRC 45-50" ∧
    "ГОСТ 1050-2013" ∈ extractGOSTStandards
        "Сталь 45, ГОСТ 1050-2013, Ra 3.2, H7/f7, закалка HRC 45-50" ∧
    extractRaValues "Сталь 45, ГОСТ 1050-2013, Ra 3.2, H7/f7, закалка HRC 45-50" =
      [(3.2 : ℚ)] ∧
    extractFits "Сталь 45, ГОСТ 1050-2013, Ra 3.2, H7/f7, закалка HRC 45-50" =
      ["H7/F7"] ∧
    "HRC 45-50" ∈ extractHeatTreatment
        "Сталь 45, ГОСТ 1050-2013, Ra 3.2, H7/f7, закалка HRC 45-50" ∧
    "HRC 45-50" ≠ "" := by
  refine ⟨?_, ?_, ?_, by decide, ?_, by decide⟩
  · rw [show extractMaterials
        "Сталь 45, ГОСТ 1050-2013, Ra 3.2, H7/f7, закалка HRC 45-50" =
      ["45", "1050", "ГОСТ 1050-2013, Ra 3.2, H7/f7, закалка HRC 45-50",
       "ОСТ 1050-2013, Ra 3.2, H7/f7, закалка HRC 45-50"] from rfl]
    exact List.mem_cons_self _ _
  · rw [show extractGOSTStandards
        "Сталь 45, ГОСТ 1050-2013, Ra 3.2, H7/f7, закалка HRC 45-50" =
      ["ГОСТ 1050-2013", "ОСТ 1050-2013"] from rfl]
    exact List.mem_cons_self _ _
  · rw [show (3.2 : ℚ) = mkRat 16 5 by rw [Rat.mkRat_eq_div]; norm_num]
    rfl
  · rw [show extractHeatTreatment
        "Сталь 45, ГОСТ 1050-2013, Ra 3.2, H7/f7, закалка HRC 45-50" =
      ["HRC 45-50", "45-50"] from rfl]
    exact List.mem_cons_self _ _

/-- Claim C9: `translateExtractedData` returns `raValues` and `fits`
exactly as in its input record, for every record and every outcome of the
per-string translation; only the other fields are mapped. -/
theorem translateExtractedData_frame (tr : String → String) (data : ExtractionRecord) :
    (translateExtractedData tr data).raValues = data.raValues ∧
    (translateExtractedData tr data).fits = data.fits :=
  ⟨rfl, rfl⟩

/-- Claim C10: `translateToEnglish` always resolves with a string and never
throws: its result is always the API text, the glossary-substituted text or
the original text; a failed API call (HTTP error or rejected fetch) yields
the glossary-substituted text, an internal error (rejected config import)
yields the original text, and a successful API call yields its non-empty
`translatedText`. -/
theorem translateToEnglish_total (text : String) :
    (∀ env : TranslateEnv, translateToEnglish env text true = text ∨
        translateToEnglish env text true = applyGlossary text ∨
        ∃ t, env = TranslateEnv.api (TranslateApiOutcome.ok (some t)) ∧
          translateToEnglish env text true = t) ∧
    (∀ st, translateToEnglish (TranslateEnv.api (TranslateApiOutcome.httpError st))
        text true = applyGlossary text) ∧
    translateToEnglish (TranslateEnv.api TranslateApiOutcome.netFail) text true =
      applyGlossary text ∧
    translateToEnglish TranslateEnv.importFail text true = text ∧
    ∀ t, t ≠ "" →
      translateToEnglish (TranslateEnv.api (TranslateApiOutcome.ok (some t))) text true = t := by
  refine ⟨?_, fun st => rfl, rfl, rfl, ?_⟩
  · intro env
    cases env with
    | importFail => exact Or.inl rfl
    | api r =>
        cases r with
        | ok t2 =>
            cases t2 with
            | none => exact Or.inr (Or.inl rfl)
            | some t =>
                by_cases ht : t = ""
                · refine Or.inr (Or.inl ?_)
                  simp [translateToEnglish, ht]
                · exact Or.inr (Or.inr ⟨t, rfl, by simp [translateToEnglish, ht]⟩)
        | httpError st => exact Or.inr (Or.inl rfl)
        | netFail => exact Or.inr (Or.inl rfl)
  · intro t ht
    simp [translateToEnglish, ht]

/-- Witness for C10: a successful API call resolves with the API text. -/
theorem translateToEnglish_total_witness :
    translateToEnglish (TranslateEnv.api (TranslateApiOutcome.ok (some "steel 45")))
      "сталь 45" true = "steel 45" :=
  (translateToEnglish_total "сталь 45").2.2.2.2 "steel 45" (by decide)

end RetroSketch
